import Mathlib

/-!
Verification of the Laylapet conversational product-recommendation engine
(`src/index.js`): a shallow embedding of the query-understanding pipeline
(`buildSearchTerms`), the synonym table (`getTranslations`), the scorer and
filter (`smartFilter`, `calculateScore`), the answer-grounding resolver and
session-recency tracker (`extractProducts`), and the decision core of the
`/api/chat` handler, together with theorems settling the specification's
claims about them.

JavaScript strings are modelled as Lean `String`s (lists of characters; the
inputs of interest are in the Basic Multilingual Plane, where JS UTF-16
`length` coincides with the character count).  The three regular expressions
of the negative-detection block and the age pattern are embedded as explicit
scanning functions reproducing JS `RegExp.exec` semantics (leftmost match,
greedy quantifiers with backtracking, `g`-flag restart at the match end) for
their specific pattern shapes.
-/

namespace Laylapet

/-! ## String primitives

Structural re-implementations of the JS string operations used by the
source, so that every definition evaluates by kernel reduction. -/

/-- JS `String.prototype.toLowerCase` on one character, restricted to the
ASCII range and the Turkish letters occurring in the source's keyword
tables.  (Full JS lowercases all of Unicode; `'İ'` is mapped to `'i'` here,
dropping the combining dot U+0307 that JS appends, which no keyword below
distinguishes.) -/
def jsLowerChar (c : Char) : Char :=
  if c == 'Ç' then 'ç'
  else if c == 'Ğ' then 'ğ'
  else if c == 'İ' then 'i'
  else if c == 'Ö' then 'ö'
  else if c == 'Ş' then 'ş'
  else if c == 'Ü' then 'ü'
  else c.toLower

/-- JS `String.prototype.toLowerCase`. -/
def jsToLower (s : String) : String := String.mk (s.data.map jsLowerChar)

/-- substring test on character lists (JS `String.prototype.includes`). -/
def listHasSub (pat : List Char) : List Char → Bool
  | [] => pat.isEmpty
  | c :: cs => pat.isPrefixOf (c :: cs) || listHasSub pat cs

/-- JS `s.includes(pat)`. -/
def strIncludes (s pat : String) : Bool := listHasSub pat.data s.data

/-- JS `str.split(' ')`: split on every single space, keeping empty pieces. -/
def splitSp : List Char → List (List Char)
  | [] => [[]]
  | c :: cs =>
    let r := splitSp cs
    if c == ' ' then [] :: r
    else
      match r with
      | [] => [[c]]
      | w :: ws => (c :: w) :: ws

/-- JS `[...new Set(list)]`: deduplicate keeping the first occurrence. -/
def dedupKeepFirst (seen : List String) : List String → List String
  | [] => []
  | x :: xs =>
    if seen.contains x then dedupKeepFirst seen xs
    else x :: dedupKeepFirst (x :: seen) xs

/-- JS `' '.join` on a list of strings (`Array.prototype.join(' ')`). -/
def joinSp : List String → String
  | [] => ""
  | [s] => s
  | s :: rest => s ++ " " ++ joinSp rest

/-! ## Character classes of the source's regular expressions -/

/-- the class `[\wğüşıöçĞÜŞİÖÇ]` of the suffix pattern and the negation
pattern: `\w` (ASCII letters, digits, underscore) plus the Turkish letters
listed in the source. -/
def isWordTr (c : Char) : Bool :=
  (decide ('a' ≤ c) && decide (c ≤ 'z')) ||
  (decide ('A' ≤ c) && decide (c ≤ 'Z')) ||
  (decide ('0' ≤ c) && decide (c ≤ '9')) ||
  c == '_' ||
  ['ğ', 'ü', 'ş', 'ı', 'ö', 'ç', 'Ğ', 'Ü', 'Ş', 'İ', 'Ö', 'Ç'].contains c

/-- the class written `[\\wğüşıöçĞÜŞİÖÇ]` inside the low-content regex
LITERAL (`lowContentRegex`, source line 439): within a regex literal `\\`
is an escaped backslash, so the class holds a literal backslash, the letter
`w`, and the Turkish letters — not the word class `\w`. -/
def isLowClass (c : Char) : Bool :=
  c == '\\' || c == 'w' ||
  ['ğ', 'ü', 'ş', 'ı', 'ö', 'ç', 'Ğ', 'Ü', 'Ş', 'İ', 'Ö', 'Ç'].contains c

/-- JS `\s` (restricted to the ASCII whitespace characters that can occur in
the chat messages modelled here). -/
def isWs (c : Char) : Bool :=
  c == ' ' || c == '\t' || c == '\n' || c == '\r' || c == '\x0b' || c == '\x0c'

/-- length of the maximal prefix of `l` inside the class `cls`. -/
def runLen (cls : Char → Bool) : List Char → Nat
  | [] => 0
  | c :: cs => if cls c then runLen cls cs + 1 else 0

/-! ## Regex matching for the source's pattern shapes -/

/-- try the literal alternatives in order at the head of `l`; on success
return the remainder after the matched alternative. -/
def firstAlt : List (List Char) → List Char → Option (List Char)
  | [], _ => none
  | a :: rest, l => if a.isPrefixOf l then some (l.drop a.length) else firstAlt rest l

/-- `\s*` (greedy, with backtracking) followed by one of `alts`: try
whitespace widths from `w` down to `0`. -/
def altAfterWs (alts : List (List Char)) (l : List Char) : Nat → Option (List Char)
  | 0 => firstAlt alts l
  | w + 1 =>
    match firstAlt alts (l.drop (w + 1)) with
    | some rem => some rem
    | none => altAfterWs alts l w

/-- backtracking for a greedy group `(cls{minLen,})` followed by `\s*`
(when `allowWs`) and one of `alts`: try group lengths `k` from the full run
length down to `minLen`.  Returns the captured group and the remainder
after the whole match. -/
def tryGroupLen (minLen : Nat) (allowWs : Bool) (alts : List (List Char))
    (run rest : List Char) : Nat → Option (List Char × List Char)
  | 0 => none
  | k + 1 =>
    if k + 1 < minLen then none
    else
      let tail := run.drop (k + 1) ++ rest
      let res := if allowWs then altAfterWs alts tail (runLen isWs tail) else firstAlt alts tail
      match res with
      | some rem => some (run.take (k + 1), rem)
      | none => tryGroupLen minLen allowWs alts run rest k

/-- match `(cls{minLen,})` `\s*`? `(alts)` exactly at the head of `l`. -/
def groupAltMatch (minLen : Nat) (allowWs : Bool) (cls : Char → Bool)
    (alts : List (List Char)) (l : List Char) : Option (List Char × List Char) :=
  let run := l.takeWhile cls
  let rest := l.drop run.length
  tryGroupLen minLen allowWs alts run rest run.length

/-- `RegExp.exec` loop with the `g` flag: find the leftmost match, emit its
first capture group, continue after the match end.  `fuel` bounds the
recursion; every step shortens the list, so `fuel = l.length` is enough. -/
def scanGroupAlt (minLen : Nat) (allowWs : Bool) (cls : Char → Bool)
    (alts : List (List Char)) : Nat → List Char → List (List Char)
  | 0, _ => []
  | _, [] => []
  | fuel + 1, c :: cs =>
    match groupAltMatch minLen allowWs cls alts (c :: cs) with
    | some (g, rest) => g :: scanGroupAlt minLen allowWs cls alts fuel rest
    | none => scanGroupAlt minLen allowWs cls alts fuel cs

/-- first match only (JS `String.prototype.match` without `g`): the first
capture group of the leftmost match, if any. -/
def findGroupAlt (minLen : Nat) (allowWs : Bool) (cls : Char → Bool)
    (alts : List (List Char)) : Nat → List Char → Option (List Char)
  | 0, _ => none
  | _, [] => none
  | fuel + 1, c :: cs =>
    match groupAltMatch minLen allowWs cls alts (c :: cs) with
    | some (g, _) => some g
    | none => findGroupAlt minLen allowWs cls alts fuel cs

/-- `\s+` (greedy, backtracking, at least one) followed by a greedy run
`(isLowClass{3,})` — the continuation of the low-content pattern after its
quantity word.  Returns the captured run and the remainder. -/
def wsThenClassRun (l : List Char) : Nat → Option (List Char × List Char)
  | 0 => none
  | w + 1 =>
    let after := l.drop (w + 1)
    let run := after.takeWhile isLowClass
    if 3 ≤ run.length then some (run, after.drop run.length)
    else wsThenClassRun l w

/-- try the quantity words (`az|düşük|dusuk|low|minimum`) in order at the
head of `l`, each followed by `\s+` and a `(isLowClass{3,})` group. -/
def tryQty : List (List Char) → List Char → Option (List Char × List Char)
  | [], _ => none
  | q :: qs, l =>
    if q.isPrefixOf l then
      let tail := l.drop q.length
      match wsThenClassRun tail (runLen isWs tail) with
      | some res => some res
      | none => tryQty qs l
    else tryQty qs l

/-- the quantity alternatives of `lowContentRegex`. -/
def qtyAlts : List (List Char) :=
  ["az".data, "düşük".data, "dusuk".data, "low".data, "minimum".data]

/-- `exec` loop for `lowContentRegex`, emitting the captured ingredient
groups. -/
def scanLow : Nat → List Char → List (List Char)
  | 0, _ => []
  | _, [] => []
  | fuel + 1, c :: cs =>
    match tryQty qtyAlts (c :: cs) with
    | some (g, rest) => g :: scanLow fuel rest
    | none => scanLow fuel cs

/-- JS `parseInt` on a digit string. -/
def digitsToNat (l : List Char) : Nat :=
  l.foldl (fun acc c => acc * 10 + (c.toNat - 48)) 0

/-! ## The synonym table (`getTranslations`, source lines 546-593) -/

/-- content-term translation table: `translations[ingredient.toLowerCase()]
|| []`. -/
def getTranslations (ingredient : String) : List String :=
  let k := jsToLower ingredient
  if k == "tavuk" then ["chicken", "tavuklu", "poultry"]
  else if k == "chicken" then ["tavuk", "tavuklu"]
  else if k == "balık" then ["fish", "balıklı", "salmon", "somon", "tuna", "ton"]
  else if k == "fish" then ["balık", "balıklı"]
  else if k == "sığır" then ["beef", "dana", "sığırlı"]
  else if k == "beef" then ["sığır", "dana"]
  else if k == "kuzu" then ["lamb", "kuzulu"]
  else if k == "lamb" then ["kuzu", "kuzulu"]
  else if k == "hindi" then ["turkey", "hindili"]
  else if k == "turkey" then ["hindi", "hindili"]
  else if k == "ördek" then ["duck", "ördekli"]
  else if k == "domuz" then ["pork", "domuzlu"]
  else if k == "tahıl" then ["grain", "tahıllı", "cereal"]
  else if k == "grain" then ["tahıl", "tahıllı"]
  else if k == "buğday" then ["wheat", "buğdaylı"]
  else if k == "wheat" then ["buğday", "buğdaylı"]
  else if k == "mısır" then ["corn", "mısırlı", "maize"]
  else if k == "corn" then ["mısır", "mısırlı"]
  else if k == "pirinç" then ["rice", "pirinçli"]
  else if k == "rice" then ["pirinç", "pirinçli"]
  else if k == "patates" then ["potato", "patatesli"]
  else if k == "potato" then ["patates", "patatesli"]
  else if k == "soya" then ["soy", "soyalı", "soybean"]
  else if k == "soy" then ["soya", "soyalı"]
  else if k == "arpa" then ["barley", "arpalı"]
  else if k == "yulaf" then ["oat", "yulaflı"]
  else if k == "süt" then ["milk", "dairy", "sütlü"]
  else if k == "milk" then ["süt", "sütlü"]
  else if k == "dairy" then ["süt", "süt ürünü"]
  else if k == "peynir" then ["cheese", "peynirli"]
  else if k == "yoğurt" then ["yogurt", "yoğurtlu"]
  else if k == "gluten" then ["glüten"]
  else if k == "glüten" then ["gluten"]
  else if k == "yumurta" then ["egg", "yumurtalı"]
  else if k == "egg" then ["yumurta", "yumurtalı"]
  else []

/-! ## Intent extraction (`buildSearchTerms`, source lines 343-543) -/

/-- the `SearchIntent` object built by `buildSearchTerms`. -/
structure SearchTerms where
  animal : Option String
  category : Option String
  special : List String
  brandKeywords : List String
  freeText : List String
  exclude : List String
deriving DecidableEq, Repr

/-- the negation words of the explicit-negation pattern. -/
def negativeWords : List String :=
  ["yok", "olmadan", "içermesin", "icermesin", "hariç", "haric",
   "istemiyorum", "istemem", "değil", "degil"]

/-- the stopword filter applied to explicit-negation captures. -/
def negStopWords : List String :=
  ["bir", "bu", "şu", "ne", "var", "mi", "mı", "için", "ürün", "urun"]

/-- the stopword list of the brand-keyword extraction. -/
def brandStopWords : List String :=
  ["var", "mi", "mı", "için", "lazim", "lazım", "ne", "nedir",
   "varmı", "var mi", "bir", "bu", "şu", "o", "ve", "ile",
   "çok", "az", "iyi", "güzel", "ucuz", "pahalı", "mnama"]

/-- the category-word list of the brand-keyword extraction. -/
def categoryWords : List String :=
  ["kedi", "köpek", "kopek", "mama", "ödül", "odul", "oyuncak",
   "yaş", "yas", "kuş", "kus", "treat", "food", "kuru"]

/-- suffix alternatives of the negation-suffix pattern (sız, siz, suz, süz). -/
def suffixAlts : List (List Char) :=
  ["sız".data, "siz".data, "suz".data, "süz".data]

/-- age-unit alternatives of the age pattern. -/
def ageAlts : List (List Char) :=
  ["yaş".data, "yas".data, "yaşında".data, "yasinda".data, "aylık".data, "aylik".data]

/-- fold one captured ingredient into the exclude accumulator: push the
ingredient and its translations when the guard passes. -/
def pushExclude (guard : String → Bool) (acc : List String) (ing : String) : List String :=
  if guard ing then acc ++ ing :: getTranslations ing else acc

/-- `buildSearchTerms(message)`: lowercase the message, detect species and
category (first match wins), run the four exclusion patterns, deduplicate,
extract brand keywords, and append the age and modifier keywords. -/
def buildSearchTerms (message : String) : SearchTerms :=
  let msg := jsToLower message
  let inc := fun (kw : String) => strIncludes msg kw
  let animal : Option String :=
    if inc "kedi" then some "kedi"
    else if inc "köpek" || inc "kopek" then some "köpek"
    else if inc "kuş" || inc "kus" then some "kuş"
    else if inc "balık" || inc "balik" then some "balık"
    else none
  let catFree : Option String × List String :=
    if inc "mama" then (some "mama", [])
    else if inc "ödül" || inc "odul" || inc "treat" then (some "ödül", [])
    else if inc "oyuncak" then (some "oyuncak", [])
    else if inc "krem" || inc "şampuan" || inc "sampuan" then
      (some "bakım",
        (if inc "krem" then ["krem", "cream"] else []) ++
        (if inc "şampuan" || inc "sampuan" then ["şampuan", "shampoo"] else []))
    else if inc "tasma" || inc "gezdirme" then
      (some "aksesuar", ["tasma", "gezdirme", "leash", "collar"])
    else if inc "kum" || inc "tuvalet" then (some "hijyen", ["kum", "litter", "tuvalet"])
    else if inc "tırnak" || inc "tirnak" then (none, ["tırnak", "nail", "clipper", "makas"])
    else if inc "diş" || inc "dis" then (none, ["diş", "dental", "tooth"])
    else if inc "kulak" then (none, ["kulak", "ear"])
    else if inc "taşıma" || inc "tasima" || inc "çanta" then
      (none, ["taşıma", "carrier", "çanta"])
    else (none, [])
  let mchars := msg.data
  -- pattern 1: `-sız/-siz/-suz/-süz` suffixes
  let suffixIngs := (scanGroupAlt 3 false isWordTr suffixAlts mchars.length mchars).map
    (fun g => jsToLower (String.mk g))
  let ex1 := suffixIngs.foldl (pushExclude (fun ing => decide (2 < ing.length))) []
  -- pattern 2: ingredient followed by a negation word
  let negIngs := (scanGroupAlt 3 true isWordTr (negativeWords.map String.data)
    mchars.length mchars).map (fun g => jsToLower (String.mk g))
  let ex2 := negIngs.foldl
    (pushExclude (fun ing => decide (2 < ing.length) && !(negStopWords.contains ing))) []
  -- pattern 3: explicit X-free shortcuts
  let ex3 :=
    (if inc "grain-free" || inc "grain free" || inc "tahılsız" then
      ["tahıl", "grain", "buğday", "wheat", "mısır", "corn", "arpa", "barley"] else []) ++
    (if inc "gluten-free" || inc "gluten free" || inc "glutensiz" then
      ["gluten", "glüten", "buğday", "wheat"] else []) ++
    (if inc "dairy-free" || inc "dairy free" then
      ["süt", "dairy", "milk", "peynir", "cheese", "yoğurt", "yogurt"] else [])
  -- pattern 4: quantity word + ingredient (`lowContentRegex`)
  let lowIngs := (scanLow mchars.length mchars).map (fun g => jsToLower (String.mk g))
  let ex4 := lowIngs.foldl
    (pushExclude (fun ing =>
      decide (2 < ing.length) && ing != "içerik" && ing != "icerik")) []
  let exclude0 := dedupKeepFirst [] (ex1 ++ ex2 ++ ex3 ++ ex4)
  -- brand keywords (computed from the deduplicated exclude list of line 450)
  let words := ((splitSp mchars).map String.mk).filter (fun w =>
    decide (2 < w.length) && !(brandStopWords.contains w) &&
    !(categoryWords.contains w) && !(negativeWords.contains w))
  let brandKeywords := words.filter (fun w => !(exclude0.contains w))
  -- age range
  let ageSpecial : List String :=
    match findGroupAlt 1 true Char.isDigit ageAlts mchars.length mchars with
    | none => []
    | some ds =>
      let age := digitsToNat ds
      if age < 1 || inc "aylık" || inc "aylik" then ["yavru", "kitten", "puppy", "junior"]
      else if 7 ≤ age then ["yaşlı", "senior", "7+", "mature"]
      else ["yetişkin", "adult"]
  -- modifier keywords, in source order
  let special :=
    ageSpecial ++
    (if inc "kısır" || inc "kisir" || inc "steril" || inc "neutered" then
      ["kısır", "sterilised", "neutered", "steril"] else []) ++
    (if inc "yavru" || inc "puppy" || inc "kitten" then
      ["yavru", "puppy", "kitten", "junior"] else []) ++
    (if inc "tahılsız" || inc "tahilsiz" || inc "grain free" then
      ["tahılsız", "grain free", "grainfree"] else []) ++
    (if inc "yaşlı" || inc "yasli" || inc "senior" then
      ["yaşlı", "senior", "7+", "mature", "elderly"]
     else if inc "yaş mama" || inc "yas mama" || inc "wet" || inc "pouch" then
      ["yaş", "wet", "pouch", "konserve"] else []) ++
    (if inc "kuru" || inc "dry" || inc "kibble" then ["dry", "kibble"] else []) ++
    (if inc "hassas" || inc "sensitive" then ["hassas", "sensitive"] else []) ++
    (if inc "yetişkin" || inc "adult" then ["yetişkin", "adult"] else []) ++
    (if inc "böbrek" || inc "bobrek" || inc "renal" then ["böbrek", "renal", "kidney"] else []) ++
    (if inc "idrar" || inc "urinary" then ["idrar", "urinary"] else []) ++
    (if inc "kilo" || inc "obez" || inc "light" then ["light", "kilo", "weight", "obez"] else []) ++
    (if inc "deri" || inc "skin" || inc "tüy" || inc "tuy" then
      ["deri", "skin", "coat", "tüy"] else [])
  -- the grain-free branch of the modifier block appends to `exclude` AFTER
  -- `brandKeywords` was computed (source lines 501-507)
  let exclude :=
    if (inc "tahılsız" || inc "tahilsiz" || inc "grain free") && !(exclude0.contains "tahıl")
    then exclude0 ++ ["tahıl", "grain", "buğday", "wheat", "mısır", "corn"]
    else exclude0
  { animal := animal, category := catFree.1, special := special,
    brandKeywords := brandKeywords, freeText := catFree.2, exclude := exclude }

/-! ## Products

The shape produced by the handler's Admin-API normalization (source lines
122-143): every field defaulted to empty string / empty list / `false` when
absent upstream. -/

/-- a normalized catalog product. -/
structure Product where
  id : String
  title : String
  handle : String
  vendor : String
  productType : String
  tags : List String
  priceAmount : String
  priceCurrency : String
  description : String
  availableForSale : Bool
  imageUrl : String
deriving DecidableEq, Repr

/-- the combined text both scorers search:
`titleLower + ' ' + allTags + ' ' + productTypeLower + ' ' + descLower`,
where `allTags` is the lowercased tags joined by spaces. -/
def combinedText (p : Product) : String :=
  jsToLower p.title ++ " " ++ joinSp (p.tags.map jsToLower) ++ " " ++
    jsToLower p.productType ++ " " ++ jsToLower p.description

/-! ## Scoring (`smartFilter`, source lines 595-715, and `calculateScore`,
source lines 717-771)

Both scores are sequential sums of independent factor contributions; they
are embedded factor by factor. -/

/-- whether any exclude term occurs in the product's combined text. -/
def excludeHit (p : Product) (t : SearchTerms) : Bool :=
  t.exclude.any (fun w => strIncludes (combinedText p) w)

/-- the exclusion factor of the filter pass: a flat `-100` once any exclude
term matches (`if (excludeMatches > 0) score -= 100`). -/
def excludePenalty (p : Product) (t : SearchTerms) : Int :=
  if 0 < t.exclude.length ∧ excludeHit p t = true then -100 else 0

/-- the brand factor of the filter pass: vendor exact `+50`, vendor partial
`+45`, title `+48`, tags `+15`, description `+10` per keyword (first
matching branch only). -/
def brandScoreFull (t : SearchTerms) (p : Product) : Int :=
  let vendorLower := jsToLower p.vendor
  let titleLower := jsToLower p.title
  let allTags := joinSp (p.tags.map jsToLower)
  let descLower := jsToLower p.description
  t.brandKeywords.foldl (fun score keyword =>
    if vendorLower != "" && vendorLower == keyword then score + 50
    else if vendorLower != "" &&
        (strIncludes vendorLower keyword || strIncludes keyword vendorLower) then score + 45
    else if strIncludes titleLower keyword then score + 48
    else if strIncludes allTags keyword then score + 15
    else if strIncludes descLower keyword then score + 10
    else score) 0

/-- the species factor of the filter pass: `+20` when the species occurs in
product type, tags, or title, else `-5` (checked only when a species was
requested). -/
def animalScoreFull (t : SearchTerms) (p : Product) : Int :=
  match t.animal with
  | none => 0
  | some a =>
    if strIncludes (jsToLower p.productType) a || strIncludes (joinSp (p.tags.map jsToLower)) a
        || strIncludes (jsToLower p.title) a then 20
    else -5

/-- the category factor of the filter pass: `+15` when the category occurs
in tags, title, or product type. -/
def categoryScoreFull (t : SearchTerms) (p : Product) : Int :=
  match t.category with
  | none => 0
  | some c =>
    if strIncludes (joinSp (p.tags.map jsToLower)) c || strIncludes (jsToLower p.title) c
        || strIncludes (jsToLower p.productType) c then 15
    else 0

/-- number of keywords of `kws` occurring in `combined`. -/
def countMatches (combined : String) (kws : List String) : Nat :=
  (kws.filter (fun k => strIncludes combined k)).length

/-- every factor of the filter-pass score except the exclusion penalty:
brand, species, category, `+15` per free-text hint, `+10` per modifier,
`+3` stock bonus. -/
def filterScoreRest (p : Product) (t : SearchTerms) : Int :=
  brandScoreFull t p + animalScoreFull t p + categoryScoreFull t p +
    15 * (countMatches (combinedText p) t.freeText : Int) +
    10 * (countMatches (combinedText p) t.special : Int) +
    (if p.availableForSale then 3 else 0)

/-- the per-product score computed inline by `smartFilter`'s filter
callback (source lines 598-699). -/
def filterScore (p : Product) (t : SearchTerms) : Int :=
  excludePenalty p t + filterScoreRest p t

/-- the brand factor of `calculateScore`: vendor exact `+50`, vendor
partial `+45`, title `+48` — no tag or description branch. -/
def brandScoreCalc (t : SearchTerms) (p : Product) : Int :=
  let vendorLower := jsToLower p.vendor
  let titleLower := jsToLower p.title
  t.brandKeywords.foldl (fun score keyword =>
    if vendorLower != "" && vendorLower == keyword then score + 50
    else if vendorLower != "" &&
        (strIncludes vendorLower keyword || strIncludes keyword vendorLower) then score + 45
    else if strIncludes titleLower keyword then score + 48
    else score) 0

/-- `calculateScore(product, searchTerms, originalMessage)` (source lines
717-771): `-100` per matching exclude term, brand factor without tag or
description branches, species and category matched against the whole
combined text with no mismatch penalty, `+15` per free-text hit, `+10` per
modifier hit, and no stock bonus.  `originalMessage` is unused, as in the
source. -/
def calculateScore (product : Product) (t : SearchTerms) (originalMessage : String) : Int :=
  let combined := combinedText product
  (-100) * ((t.exclude.filter (fun w => strIncludes combined w)).length : Int) +
    brandScoreCalc t product +
    (match t.animal with
     | none => 0
     | some a => if strIncludes combined a then 20 else 0) +
    (match t.category with
     | none => 0
     | some c => if strIncludes combined c then 15 else 0) +
    15 * (countMatches combined t.freeText : Int) +
    10 * (countMatches combined t.special : Int)

/-! ## Stable sorting

`Array.prototype.sort` is stable; for a total preorder comparator the
stable order is unique, so it is modelled by a stable insertion sort
(structurally recursive, hence kernel-reducible). -/

/-- insert `x` before the first element `y` with `le x y`. -/
def insertStable (le : α → α → Bool) (x : α) : List α → List α
  | [] => [x]
  | y :: ys => if le x y then x :: y :: ys else y :: insertStable le x ys

/-- stable insertion sort. -/
def sortStable (le : α → α → Bool) : List α → List α
  | [] => []
  | x :: xs => insertStable le x (sortStable le xs)

/-- `smartFilter(products, searchTerms, originalMessage)` (source lines
595-715): keep the products whose inline filter score is strictly
positive, then sort descending by `calculateScore`
(`(a, b) => scoreB - scoreA`). -/
def smartFilter (products : List Product) (searchTerms : SearchTerms)
    (originalMessage : String) : List Product :=
  sortStable
    (fun a b => decide (calculateScore b searchTerms originalMessage ≤
      calculateScore a searchTerms originalMessage))
    (products.filter (fun p => decide (0 < filterScore p searchTerms)))

/-! ## Answer grounding and session recency (`extractProducts`, source
lines 810-867) -/

/-- the object pushed into `recommended`.  `parseFloat(amount).toFixed(2)`
is display formatting over IEEE floats; the raw amount string is carried
instead (no claim inspects the displayed price). -/
structure RecommendedProduct where
  title : String
  handle : String
  price : String
  currency : String
  image : String
  vendor : String
deriving DecidableEq, Repr

/-- builds the record pushed by both passes of `extractProducts`. -/
def mkRecommended (p : Product) : RecommendedProduct :=
  { title := p.title, handle := p.handle, price := p.priceAmount,
    currency := p.priceCurrency, image := p.imageUrl, vendor := p.vendor }

/-- first pass (source lines 815-831): include a matching candidate while
fewer than 3 are collected and its `id` is not in the recency list. -/
def firstPass (reply : String) (recent : List String) :
    List Product → List RecommendedProduct → List RecommendedProduct
  | [], acc => acc
  | p :: ps, acc =>
    let titleMatch := strIncludes reply p.title
    let handleMatch := strIncludes reply p.handle
    if (titleMatch || handleMatch) && decide (acc.length < 3) && !(recent.contains p.id) then
      firstPass reply recent ps (acc ++ [mkRecommended p])
    else firstPass reply recent ps acc

/-- second pass (source lines 833-852): top up to 3 without the recency
exclusion, skipping handles already selected. -/
def secondPass (reply : String) :
    List Product → List RecommendedProduct → List RecommendedProduct
  | [], acc => acc
  | p :: ps, acc =>
    let titleMatch := strIncludes reply p.title
    let handleMatch := strIncludes reply p.handle
    if (titleMatch || handleMatch) && decide (acc.length < 3) then
      if acc.any (fun r => r.handle == p.handle) then secondPass reply ps acc
      else secondPass reply ps (acc ++ [mkRecommended p])
    else secondPass reply ps acc

/-- the process-wide `recentRecommendations` map: a JS `Map` preserves
insertion order, `set` on a fresh key appends, on an existing key updates
in place. -/
abbrev RecencyMap := List (String × List String)

/-- `recentRecommendations.get(sessionId) || []`. -/
def mapGet (m : RecencyMap) (k : String) : List String :=
  match m.find? (fun e => e.1 == k) with
  | some e => e.2
  | none => []

/-- `recentRecommendations.set(k, v)`. -/
def mapSet (m : RecencyMap) (k : String) (v : List String) : RecencyMap :=
  if m.any (fun e => e.1 == k) then m.map (fun e => if e.1 == k then (k, v) else e)
  else m ++ [(k, v)]

/-- JS `Array.prototype.slice(-n)`: the last `n` elements (all of them when
fewer). -/
def takeLast (n : Nat) (l : List α) : List α := l.drop (l.length - n)

/-- the state update of `extractProducts` (source lines 854-864): append
the selected handles to the session history truncated to the last 15
(`[...recent, ...productIds].slice(-15)`), then trim the whole map to its
last 500 entries by insertion order when it exceeds 1000. -/
def recordRecency (st : RecencyMap) (sessionId : String) (productIds : List String) :
    RecencyMap :=
  let updatedRecent := takeLast 15 (mapGet st sessionId ++ productIds)
  let st1 := mapSet st sessionId updatedRecent
  if 1000 < st1.length then takeLast 500 st1 else st1

/-- `extractProducts(reply, allProducts, sessionId)` over an explicit
recency state: two grounding passes, then the recency-state update. -/
def extractProducts (reply : String) (allProducts : List Product) (sessionId : String)
    (st : RecencyMap) : List RecommendedProduct × RecencyMap :=
  let recent := mapGet st sessionId
  let rec1 := firstPass reply recent allProducts []
  let recommended := if rec1.length < 3 then secondPass reply allProducts rec1 else rec1
  (recommended, recordRecency st sessionId (recommended.map (fun r => r.handle)))

/-! ## The chat handler's decision core (`app.post('/api/chat')`, source
lines 18-233)

The catalog is a parameter (the Shopify fetch, pagination and cache are
external I/O plumbing), and the outcome marks whether the handler
short-circuits or proceeds to contact the OpenAI provider. -/

/-- outcome of the handler's synchronous decision logic. -/
inductive ChatOutcome where
  | badRequest (reply : String)
  | noResults (reply : String) (products : List RecommendedProduct)
  | llmCall (productsForAI : List Product)
deriving DecidableEq, Repr

/-- the fixed no-results fallback reply (source line 170). -/
def noResultsReply : String :=
  "Bu kriterlere uygun ürün bulamadım 😔\n\nBaşka bir şey deneyebilir misin?\n\n💡 Öneriler:\n• \"Kedi maması\"\n• \"Tavuksuz kedi maması\"\n• \"Tahılsız köpek maması\"\n• \"Az balık içerikli mama\""

/-- the handler's decision: reject missing message or shop domain (falsy
check — the empty string), build the intent, filter, and either return the
fixed fallback with an empty product list or hand the first 12 filtered
products to the language model. -/
def chatHandlerDecision (message shopDomain : String) (catalog : List Product) : ChatOutcome :=
  if message == "" || shopDomain == "" then
    ChatOutcome.badRequest "Mesaj veya shop domain eksik"
  else
    let searchTerms := buildSearchTerms message
    let filteredProducts := smartFilter catalog searchTerms message
    if filteredProducts.length == 0 then ChatOutcome.noResults noResultsReply []
    else ChatOutcome.llmCall (filteredProducts.take 12)

/-! ## Fallibility model for scoring over possibly-missing fields

`smartFilter`'s callback begins with `p.title.toLowerCase()`,
`p.description.toLowerCase()`, `p.vendor.toLowerCase()`, `p.tags.map(...)`,
`p.productType.toLowerCase()` (source lines 600-604; `calculateScore`
performs the same accesses).  When such a field is `undefined`, the method
access throws `TypeError`; `p.availableForSale` is only used as a truthy
test, so its absence silently behaves as `false`. -/

/-- a catalog product as raw JS data, optional fields possibly absent. -/
structure ProductJS where
  id : String
  title : String
  handle : String
  vendor : Option String
  productType : Option String
  tags : Option (List String)
  priceAmount : String
  priceCurrency : String
  description : Option String
  availableForSale : Option Bool
  imageUrl : String
deriving DecidableEq, Repr

/-- JS member access on a possibly-undefined field (`x.f.toLowerCase()`):
throws `TypeError` when the field is absent. -/
def jsAccess (field : String) : Option α → Except String α
  | some v => Except.ok v
  | none => Except.error ("TypeError: " ++ field ++ " is undefined")

/-- the field accesses the scoring callbacks perform, in source order;
returns the normalized product when they all succeed. -/
def toProductE (p : ProductJS) : Except String Product := do
  let desc ← jsAccess "description" p.description
  let vendor ← jsAccess "vendor" p.vendor
  let tags ← jsAccess "tags" p.tags
  let ptype ← jsAccess "productType" p.productType
  Except.ok
    { id := p.id, title := p.title, handle := p.handle, vendor := vendor,
      productType := ptype, tags := tags, priceAmount := p.priceAmount,
      priceCurrency := p.priceCurrency, description := desc,
      availableForSale := p.availableForSale.getD false, imageUrl := p.imageUrl }

/-- the normalization the handler applies upstream (source lines 122-143):
absent fields default to empty string, empty list, `false`. -/
def toProduct (p : ProductJS) : Product :=
  { id := p.id, title := p.title, handle := p.handle, vendor := p.vendor.getD "",
    productType := p.productType.getD "", tags := p.tags.getD [],
    priceAmount := p.priceAmount, priceCurrency := p.priceCurrency,
    description := p.description.getD "",
    availableForSale := p.availableForSale.getD false, imageUrl := p.imageUrl }

/-- sequential fallible map; the first error propagates, as the JS loop
throws at the first product whose field access fails. -/
def mapE (f : α → Except String β) : List α → Except String (List β)
  | [] => Except.ok []
  | a :: as =>
    match f a with
    | Except.error e => Except.error e
    | Except.ok b =>
      match mapE f as with
      | Except.error e => Except.error e
      | Except.ok bs => Except.ok (b :: bs)

/-- `calculateScore` over raw JS products: every field access may throw. -/
def calculateScoreE (p : ProductJS) (t : SearchTerms) (originalMessage : String) :
    Except String Int := do
  let n ← toProductE p
  Except.ok (calculateScore n t originalMessage)

/-- `smartFilter` over raw JS products: the callback's field accesses may
throw, and the first throw propagates out of the whole call. -/
def smartFilterE (ps : List ProductJS) (t : SearchTerms) (msg : String) :
    Except String (List Product) :=
  match mapE toProductE ps with
  | Except.error e => Except.error e
  | Except.ok ns => Except.ok (smartFilter ns t msg)

/-! ## Exclude-term expansion as a set operation (for the idempotence
claim) -/

/-- one round of synonym expansion over a set of terms: every member
unioned with its translations, duplicates collapsed. -/
def expandOnce (s : List String) : List String :=
  dedupKeepFirst [] (s ++ s.flatMap (fun t => getTranslations t))

/-- the exclude terms one detected base term contributes: the term plus one
round of its translations, duplicates collapsed. -/
def oneRoundClosure (b : String) : List String :=
  dedupKeepFirst [] (b :: getTranslations b)

/-- the all-empty intent (produced e.g. for a message with no recognizable
keywords and no token longer than 2 characters). -/
def emptyTerms : SearchTerms :=
  { animal := none, category := none, special := [], brandKeywords := [],
    freeText := [], exclude := [] }

/-! ## Helper lemmas -/

theorem mem_insertStable {α : Type} (le : α → α → Bool) (x y : α) (l : List α) :
    y ∈ insertStable le x l ↔ y = x ∨ y ∈ l := by
  induction l with
  | nil => simp [insertStable]
  | cons a as ih =>
    simp only [insertStable]
    split
    · simp [List.mem_cons]
    · simp only [List.mem_cons, ih]
      tauto

theorem mem_sortStable {α : Type} (le : α → α → Bool) (y : α) (l : List α) :
    y ∈ sortStable le l ↔ y ∈ l := by
  induction l with
  | nil => simp [sortStable]
  | cons a as ih => simp [sortStable, mem_insertStable, ih]

theorem contains_iff_mem (l : List String) (a : String) :
    l.contains a = true ↔ a ∈ l := by
  induction l with
  | nil => simp [List.contains]
  | cons b bs ih => simp [List.contains, List.elem_cons] at ih ⊢

theorem mem_dedupKeepFirst (l : List String) (seen : List String) (x : String) :
    x ∈ dedupKeepFirst seen l ↔ x ∈ l ∧ x ∉ seen := by
  induction l generalizing seen with
  | nil => simp [dedupKeepFirst]
  | cons a as ih =>
    simp only [dedupKeepFirst]
    split
    · rename_i hcon
      have ha : a ∈ seen := (contains_iff_mem seen a).mp hcon
      rw [ih]
      simp only [List.mem_cons]
      constructor
      · exact fun ⟨h1, h2⟩ => ⟨Or.inr h1, h2⟩
      · rintro ⟨h1 | h1, h2⟩
        · exact absurd (h1 ▸ ha) h2
        · exact ⟨h1, h2⟩
    · rename_i hcon
      have ha : a ∉ seen := by
        intro hmem
        exact hcon ((contains_iff_mem seen a).mpr hmem)
      simp only [List.mem_cons, ih, List.mem_cons]
      constructor
      · rintro (rfl | ⟨h1, h2⟩)
        · exact ⟨Or.inl rfl, ha⟩
        · exact ⟨Or.inr h1, fun hs => h2 (Or.inr hs)⟩
      · rintro ⟨rfl | h1, h2⟩
        · exact Or.inl rfl
        · by_cases hxa : x = a
          · exact Or.inl hxa
          · exact Or.inr ⟨h1, by simp [hxa, h2]⟩

/-! ## Claim C1 -/

/-- C1, as stated, is false: for the message "tavuk olmadan aaa bbb ccc"
(an explicit exclusion phrase for chicken) and a one-product catalog whose
product title contains the exclude term "chicken", `smartFilter` still
ranks the product (three brand-keyword title hits at +48 outweigh the flat
-100 exclusion penalty). -/
def c1msg : String := "tavuk olmadan aaa bbb ccc"

/-- the chicken-containing product that survives the exclusion filter. -/
def c1prod : Product :=
  { id := "1", title := "aaa bbb ccc chicken", handle := "p1", vendor := "",
    productType := "", tags := [], priceAmount := "10", priceCurrency := "TRY",
    description := "", availableForSale := false, imageUrl := "" }

set_option maxRecDepth 20000 in
/-- C1 counterexample: the message "tavuk olmadan aaa bbb ccc" contains the
explicit exclusion phrase "tavuk olmadan", yet the ranked output of
`smartFilter` contains a product whose combined text contains the exclude
term "chicken". -/
theorem smartFilter_exclusion_not_absolute_cex :
    c1prod ∈ smartFilter [c1prod] (buildSearchTerms c1msg) c1msg ∧
    excludeHit c1prod (buildSearchTerms c1msg) = true := by decide

/-- C1 (amended): for every message and catalog, a product in the ranked
output of `smartFilter` whose combined title, tags, product type and
description contains one of the intent's exclude terms must have
non-exclusion score factors totalling strictly more than the flat 100
exclusion penalty; exclusion guarantees removal only of products whose
other factors total at most 100. -/
theorem smartFilter_excluded_survivor_rest_over_100 (products : List Product)
    (message : String) (p : Product)
    (hmem : p ∈ smartFilter products (buildSearchTerms message) message)
    (hhit : excludeHit p (buildSearchTerms message) = true) :
    100 < filterScoreRest p (buildSearchTerms message) := by
  have h1 : p ∈ products.filter
      (fun q => decide (0 < filterScore q (buildSearchTerms message))) :=
    (mem_sortStable _ _ _).mp hmem
  have h2 : 0 < filterScore p (buildSearchTerms message) :=
    of_decide_eq_true (List.mem_filter.mp h1).2
  have hne : 0 < (buildSearchTerms message).exclude.length := by
    rcases hx : (buildSearchTerms message).exclude with _ | ⟨w, ws⟩
    · rw [excludeHit, hx] at hhit
      simp at hhit
    · simp
  have hpen : filterScore p (buildSearchTerms message) =
      -100 + filterScoreRest p (buildSearchTerms message) := by
    rw [filterScore, excludePenalty, if_pos ⟨hne, hhit⟩]
  omega

set_option maxRecDepth 20000 in
/-- C1 witness: the amended theorem applied at the concrete counterexample
catalog and message. -/
theorem smartFilter_excluded_survivor_rest_over_100_witness :
    100 < filterScoreRest c1prod (buildSearchTerms c1msg) :=
  smartFilter_excluded_survivor_rest_over_100 [c1prod] c1msg c1prod
    (by decide) (by decide)

/-! ## Claim C2 -/

/-- an in-stock product with no other signals, separating the two scores. -/
def c2prod : Product :=
  { id := "2", title := "Mama", handle := "m", vendor := "", productType := "",
    tags := [], priceAmount := "1", priceCurrency := "TRY", description := "",
    availableForSale := true, imageUrl := "" }

/-- C2 counterexample: the score `smartFilter`'s filter pass computes and
the `calculateScore` driving the sort differ on a concrete product and
intent (the empty intent and an in-stock product: 3 versus 0), so filtering
and ordering are not driven by one and the same score. -/
theorem filterScore_ne_calculateScore_cex :
    filterScore c2prod emptyTerms ≠ calculateScore c2prod emptyTerms "mama" := by decide

/-- C2 (amended): filtering and ordering are driven by two different
per-product scores — `smartFilter` keeps products whose inline filter-pass
score is strictly positive and sorts them by `calculateScore`, and the two
differ: already on an intent with every field empty, the filter-pass score
exceeds `calculateScore` by exactly the +3 stock bonus on available
products (they further differ on tag/description brand branches, the
species-mismatch penalty, and repeated exclusion hits). -/
theorem filterScore_eq_calculateScore_add_stock_on_empty_intent
    (p : Product) (msg : String) :
    filterScore p emptyTerms =
      calculateScore p emptyTerms msg + (if p.availableForSale then 3 else 0) := by
  simp [filterScore, calculateScore, excludePenalty, filterScoreRest, excludeHit,
    brandScoreFull, brandScoreCalc, animalScoreFull, categoryScoreFull,
    countMatches, emptyTerms]

/-! ## Claim C3 -/

set_option maxRecDepth 20000 in
/-- C3: the code evaluated at the failing input "az tavuk" — the claim (and
the source's own comment and its no-results suggestion "Az balık içerikli
mama") expect the ingredient "tavuk" and its translations in the exclude
list, but the capture class of `lowContentRegex` is written `[\\w...]`
inside a regex literal, which matches only a literal backslash, the letter
`w` and the Turkish letters, so nothing is captured and the exclude list
stays empty. -/
theorem lowContent_az_tavuk_excludes_nothing :
    (buildSearchTerms "az tavuk").exclude = [] := by decide

/-! ## Claim C4 -/

/-- a candidate whose `id` ("42") differs from its `handle` ("fish-food"),
as the Admin-API normalization always produces. -/
def c4prod : Product :=
  { id := "42", title := "Fish Food Deluxe", handle := "fish-food", vendor := "",
    productType := "", tags := [], priceAmount := "5", priceCurrency := "TRY",
    description := "", availableForSale := true, imageUrl := "" }

/-- the model reply naming the candidate. -/
def c4reply : String := "Try Fish Food Deluxe"

/-- C4: the code evaluated at the failing input — a first call records the
candidate's HANDLE "fish-food" in the session history, yet a second call's
first pass still includes the same candidate, because the pass checks
`recent.includes(p.id)` with the id "42" against the stored handles; a
candidate that appeared in the recorded history is not skipped. -/
theorem firstPass_ignores_recorded_handles :
    (extractProducts c4reply [c4prod] "s" []).2 = [("s", ["fish-food"])] ∧
    firstPass c4reply ["fish-food"] [c4prod] [] = [mkRecommended c4prod] := by decide

/-! ## Claim C5 -/

/-- C5 counterexample: the set {fish, balık, balıklı} is exactly one round
of synonym expansion of the detected base term "fish" (duplicates
collapsed), yet re-running expansion over its members adds "salmon" (via
"balık"), so one-round expansion is not idempotent. -/
theorem expandOnce_not_idempotent_on_one_round_cex :
    ("salmon" ∈ expandOnce (oneRoundClosure "fish")) ∧
    "salmon" ∉ oneRoundClosure "fish" := by decide

/-- C5 (amended): exclude-term expansion is idempotent exactly on sets
closed under the translation table — if every member's translations are
already members, re-running expansion over every member and unioning the
results yields the same set; the one-round expansion of a base term need
not be such a set, because the table is asymmetric. -/
theorem expandOnce_fixed_on_closed_sets (s : List String)
    (h : ∀ t ∈ s, ∀ u ∈ getTranslations t, u ∈ s) (x : String) :
    x ∈ expandOnce s ↔ x ∈ s := by
  rw [expandOnce, mem_dedupKeepFirst]
  simp only [List.mem_append, List.mem_flatMap, List.not_mem_nil, not_false_iff, and_true]
  constructor
  · rintro (hx | ⟨t, ht, hx⟩)
    · exact hx
    · exact h t ht x hx
  · exact fun hx => Or.inl hx

/-- the full closure of "fish" under the translation table. -/
def fishClosed : List String :=
  ["fish", "balık", "balıklı", "salmon", "somon", "tuna", "ton"]

/-- C5 witness: the amended theorem applied to the concrete closed set
`fishClosed`. -/
theorem expandOnce_fixed_on_closed_sets_witness :
    ("salmon" ∈ expandOnce fishClosed) ↔ "salmon" ∈ fishClosed :=
  expandOnce_fixed_on_closed_sets fishClosed (by decide) "salmon"

/-! ## Lemmas on the grounding passes -/

theorem firstPass_len (reply : String) (recent : List String) (ps : List Product)
    (acc : List RecommendedProduct) (h : acc.length ≤ 3) :
    (firstPass reply recent ps acc).length ≤ 3 := by
  induction ps generalizing acc with
  | nil => simpa [firstPass] using h
  | cons p ps ih =>
    simp only [firstPass]
    split
    · rename_i hc
      simp only [Bool.and_eq_true, decide_eq_true_eq] at hc
      apply ih
      simp only [List.length_append, List.length_cons, List.length_nil]
      omega
    · exact ih acc h

theorem secondPass_len (reply : String) (ps : List Product)
    (acc : List RecommendedProduct) (h : acc.length ≤ 3) :
    (secondPass reply ps acc).length ≤ 3 := by
  induction ps generalizing acc with
  | nil => simpa [secondPass] using h
  | cons p ps ih =>
    simp only [secondPass]
    split
    · rename_i hc
      simp only [Bool.and_eq_true, decide_eq_true_eq] at hc
      split
      · exact ih acc h
      · apply ih
        simp only [List.length_append, List.length_cons, List.length_nil]
        omega
    · exact ih acc h

theorem firstPass_mem (reply : String) (recent : List String) (ps : List Product)
    (acc : List RecommendedProduct) (x : RecommendedProduct)
    (hx : x ∈ firstPass reply recent ps acc) :
    x ∈ acc ∨ ∃ p, p ∈ ps ∧ x = mkRecommended p ∧
      (strIncludes reply p.title = true ∨ strIncludes reply p.handle = true) := by
  induction ps generalizing acc with
  | nil => exact Or.inl (by simpa [firstPass] using hx)
  | cons p ps ih =>
    simp only [firstPass] at hx
    split at hx
    · rename_i hc
      simp only [Bool.and_eq_true, Bool.or_eq_true] at hc
      rcases ih _ hx with hacc | ⟨q, hq, hxq, hm⟩
      · rcases List.mem_append.mp hacc with h1 | h1
        · exact Or.inl h1
        · refine Or.inr ⟨p, List.mem_cons_self p ps, by simpa using h1, hc.1.1⟩
      · exact Or.inr ⟨q, List.mem_cons_of_mem p hq, hxq, hm⟩
    · rcases ih _ hx with hacc | ⟨q, hq, hxq, hm⟩
      · exact Or.inl hacc
      · exact Or.inr ⟨q, List.mem_cons_of_mem p hq, hxq, hm⟩

theorem secondPass_mem (reply : String) (ps : List Product)
    (acc : List RecommendedProduct) (x : RecommendedProduct)
    (hx : x ∈ secondPass reply ps acc) :
    x ∈ acc ∨ ∃ p, p ∈ ps ∧ x = mkRecommended p ∧
      (strIncludes reply p.title = true ∨ strIncludes reply p.handle = true) := by
  induction ps generalizing acc with
  | nil => exact Or.inl (by simpa [secondPass] using hx)
  | cons p ps ih =>
    simp only [secondPass] at hx
    split at hx
    · rename_i hc
      simp only [Bool.and_eq_true, Bool.or_eq_true] at hc
      split at hx
      · rcases ih _ hx with hacc | ⟨q, hq, hxq, hm⟩
        · exact Or.inl hacc
        · exact Or.inr ⟨q, List.mem_cons_of_mem p hq, hxq, hm⟩
      · rcases ih _ hx with hacc | ⟨q, hq, hxq, hm⟩
        · rcases List.mem_append.mp hacc with h1 | h1
          · exact Or.inl h1
          · exact Or.inr ⟨p, List.mem_cons_self p ps, by simpa using h1, hc.1⟩
        · exact Or.inr ⟨q, List.mem_cons_of_mem p hq, hxq, hm⟩
    · rcases ih _ hx with hacc | ⟨q, hq, hxq, hm⟩
      · exact Or.inl hacc
      · exact Or.inr ⟨q, List.mem_cons_of_mem p hq, hxq, hm⟩

/-! ## Claim C6 -/

/-- C6: for every reply text, candidate list, session and recency state,
`extractProducts` returns at most 3 entries, each built from a candidate
whose title or handle occurs as a literal substring of the reply; in
particular, when no candidate's title or handle occurs in the reply, the
result is empty. -/
theorem extractProducts_grounded_cap3 (reply : String) (products : List Product)
    (sessionId : String) (st : RecencyMap) :
    (extractProducts reply products sessionId st).1.length ≤ 3 ∧
    (∀ x ∈ (extractProducts reply products sessionId st).1,
      ∃ p, p ∈ products ∧ x = mkRecommended p ∧
        (strIncludes reply p.title = true ∨ strIncludes reply p.handle = true)) ∧
    ((∀ p ∈ products, strIncludes reply p.title = false ∧ strIncludes reply p.handle = false) →
      (extractProducts reply products sessionId st).1 = []) := by
  have hfst : (extractProducts reply products sessionId st).1 =
      if (firstPass reply (mapGet st sessionId) products []).length < 3 then
        secondPass reply products (firstPass reply (mapGet st sessionId) products [])
      else firstPass reply (mapGet st sessionId) products [] := rfl
  have hmemall : ∀ x ∈ (extractProducts reply products sessionId st).1,
      ∃ p, p ∈ products ∧ x = mkRecommended p ∧
        (strIncludes reply p.title = true ∨ strIncludes reply p.handle = true) := by
    intro x hx
    rw [hfst] at hx
    split at hx
    · rcases secondPass_mem reply products _ x hx with h1 | h1
      · rcases firstPass_mem reply _ products [] x h1 with h0 | h0
        · cases h0
        · exact h0
      · exact h1
    · rcases firstPass_mem reply _ products [] x hx with h0 | h0
      · cases h0
      · exact h0
  refine ⟨?_, hmemall, ?_⟩
  · rw [hfst]
    split
    · exact secondPass_len reply products _ (le_of_lt (by assumption))
    · exact firstPass_len reply _ products [] (by simp)
  · intro hno
    rw [List.eq_nil_iff_forall_not_mem]
    intro x hx
    obtain ⟨p, hp, _, hm⟩ := hmemall x hx
    rcases hm with hm | hm
    · rw [(hno p hp).1] at hm
      cases hm
    · rw [(hno p hp).2] at hm
      cases hm

/-- a candidate whose title and handle do not occur in the witness reply. -/
def c6prod : Product :=
  { id := "9", title := "Zzz", handle := "zzz", vendor := "", productType := "",
    tags := [], priceAmount := "1", priceCurrency := "TRY", description := "",
    availableForSale := true, imageUrl := "" }

/-- C6 witness: the theorem applied at a concrete reply, candidate list and
state, discharging the no-match hypothesis of its last conjunct. -/
theorem extractProducts_grounded_cap3_witness :
    (extractProducts "hello" [c6prod] "s" []).1.length ≤ 3 ∧
    (extractProducts "hello" [c6prod] "s" []).1 = [] :=
  ⟨(extractProducts_grounded_cap3 "hello" [c6prod] "s" []).1,
   (extractProducts_grounded_cap3 "hello" [c6prod] "s" []).2.2 (by decide)⟩

/-! ## Claim C7 -/

theorem takeLast_length_le {α : Type} (n : Nat) (l : List α) :
    (takeLast n l).length ≤ n := by
  simp only [takeLast, List.length_drop]
  omega

theorem takeLast_length_eq {α : Type} (n : Nat) (l : List α) (h : n ≤ l.length) :
    (takeLast n l).length = n := by
  simp only [takeLast, List.length_drop]
  omega

theorem takeLast_mem {α : Type} (n : Nat) (l : List α) (e : α)
    (he : e ∈ takeLast n l) : e ∈ l :=
  List.drop_subset _ l he

theorem mapSet_mem (m : RecencyMap) (k : String) (v : List String)
    (e : String × List String) (he : e ∈ mapSet m k v) : e ∈ m ∨ e.2 = v := by
  rw [mapSet] at he
  split at he
  · rcases List.mem_map.mp he with ⟨a, ha, hae⟩
    by_cases hk : (a.1 == k) = true
    · right
      rw [← hae]
      simp [hk]
    · left
      rw [← hae]
      simp only [hk]
      simpa using ha
  · rcases List.mem_append.mp he with h1 | h1
    · exact Or.inl h1
    · right
      simp only [List.mem_singleton] at h1
      rw [h1]

theorem mapSet_length_le (m : RecencyMap) (k : String) (v : List String) :
    (mapSet m k v).length ≤ m.length + 1 := by
  rw [mapSet]
  split
  · simp
  · simp

theorem mapSet_length_fresh (m : RecencyMap) (k : String) (v : List String)
    (h : ∀ e ∈ m, e.1 ≠ k) : (mapSet m k v).length = m.length + 1 := by
  have hany : ¬ ((m.any fun e => e.1 == k) = true) := by
    intro hc
    obtain ⟨e, he, heq⟩ := List.any_eq_true.mp hc
    exact h e he (by simpa using heq)
  rw [mapSet, if_neg hany]
  simp

theorem recordRecency_bounds (st : RecencyMap) (sessionId : String)
    (productIds : List String)
    (h15 : ∀ e ∈ st, e.2.length ≤ 15) (hcap : st.length ≤ 1000) :
    (∀ e ∈ recordRecency st sessionId productIds, e.2.length ≤ 15) ∧
    (recordRecency st sessionId productIds).length ≤ 1000 ∧
    (st.length = 1000 → (∀ e ∈ st, e.1 ≠ sessionId) →
      (recordRecency st sessionId productIds).length = 500) := by
  rw [recordRecency]
  set upd := takeLast 15 (mapGet st sessionId ++ productIds) with hupd
  set st1 := mapSet st sessionId upd with hst1
  have hupd15 : upd.length ≤ 15 := takeLast_length_le 15 _
  have hmem1 : ∀ e ∈ st1, e.2.length ≤ 15 := by
    intro e he
    rcases mapSet_mem st sessionId upd e he with h1 | h1
    · exact h15 e h1
    · rw [h1]
      exact hupd15
  have hlen1 : st1.length ≤ st.length + 1 := mapSet_length_le st sessionId upd
  refine ⟨?_, ?_, ?_⟩
  · intro e he
    split at he
    · exact hmem1 e (takeLast_mem 500 st1 e he)
    · exact hmem1 e he
  · split
    · exact le_trans (takeLast_length_le 500 st1) (by omega)
    · omega
  · intro hfull hfresh
    have h1001 : st1.length = 1001 := by
      rw [hst1, mapSet_length_fresh st sessionId upd hfresh, hfull]
    rw [if_pos (by omega)]
    exact takeLast_length_eq 500 st1 (by omega)

/-- C7: the session-recency invariant is preserved by every
`extractProducts` call — afterwards every stored session history holds at
most 15 entries and the session map holds at most 1000 entries, and a call
that pushes a fresh session past the 1000 cap trims the map to its most
recent 500 entries by insertion order. -/
theorem extractProducts_recency_bounds (reply : String) (products : List Product)
    (sessionId : String) (st : RecencyMap)
    (h15 : ∀ e ∈ st, e.2.length ≤ 15) (hcap : st.length ≤ 1000) :
    (∀ e ∈ (extractProducts reply products sessionId st).2, e.2.length ≤ 15) ∧
    (extractProducts reply products sessionId st).2.length ≤ 1000 ∧
    (st.length = 1000 → (∀ e ∈ st, e.1 ≠ sessionId) →
      (extractProducts reply products sessionId st).2.length = 500) := by
  have hsnd : (extractProducts reply products sessionId st).2 =
      recordRecency st sessionId
        ((extractProducts reply products sessionId st).1.map (fun r => r.handle)) := rfl
  rw [hsnd]
  exact recordRecency_bounds st sessionId _ h15 hcap

/-- C7 witness: the theorem applied at a concrete state, discharging its
invariant hypotheses. -/
theorem extractProducts_recency_bounds_witness :
    (∀ e ∈ (extractProducts "r" [] "sess" [("t", ["a", "b"])]).2, e.2.length ≤ 15) ∧
    (extractProducts "r" [] "sess" [("t", ["a", "b"])]).2.length ≤ 1000 ∧
    ([("t", ["a", "b"])].length = 1000 →
      (∀ e ∈ [("t", ["a", "b"])], e.1 ≠ "sess") →
      (extractProducts "r" [] "sess" [("t", ["a", "b"])]).2.length = 500) :=
  extractProducts_recency_bounds "r" [] "sess" [("t", ["a", "b"])]
    (by decide) (by decide)

/-! ## Claim C8 -/

/-- C8: whenever `smartFilter` returns an empty list for the request's
message and catalog (and the request is well-formed), the chat handler
returns the fixed no-results fallback reply with an empty product list —
the `noResults` outcome, reached strictly before the point where the
handler would contact the language-model provider (`llmCall`). -/
theorem chatHandler_noResults_short_circuit (message shopDomain : String)
    (catalog : List Product) (hm : message ≠ "") (hs : shopDomain ≠ "")
    (hempty : smartFilter catalog (buildSearchTerms message) message = []) :
    chatHandlerDecision message shopDomain catalog =
      ChatOutcome.noResults noResultsReply [] := by
  rw [chatHandlerDecision, if_neg]
  · simp [hempty]
  · simp [hm, hs]

/-- C8 witness: the theorem applied at a concrete message, shop domain and
the empty catalog. -/
theorem chatHandler_noResults_short_circuit_witness :
    chatHandlerDecision "merhaba" "shop.example" [] =
      ChatOutcome.noResults noResultsReply [] :=
  chatHandler_noResults_short_circuit "merhaba" "shop.example" []
    (by decide) (by decide) rfl

/-! ## Claim C9 -/

/-- a product with an absent `vendor` field, whose access throws. -/
def c9bad : ProductJS :=
  { id := "1", title := "Mama", handle := "mama", vendor := none,
    productType := some "", tags := some [], priceAmount := "1", priceCurrency := "TRY",
    description := some "", availableForSale := some true, imageUrl := "" }

/-- C9 counterexample: scoring is not total over products with missing
optional fields — on a product whose `vendor` is absent, `smartFilter`'s
callback throws `TypeError` at `p.vendor.toLowerCase()` instead of
treating the field as empty. -/
theorem smartFilterE_undefined_vendor_throws_cex :
    smartFilterE [c9bad] emptyTerms "mama" =
      Except.error "TypeError: vendor is undefined" := rfl

theorem toProductE_ok (p : ProductJS) (hv : p.vendor.isSome = true)
    (ht : p.tags.isSome = true) (hd : p.description.isSome = true)
    (hp : p.productType.isSome = true) :
    toProductE p = Except.ok (toProduct p) := by
  rcases p with ⟨id, title, handle, vendor, ptype, tags, pa, pc, desc, av, img⟩
  rcases vendor with _ | v
  · simp at hv
  rcases ptype with _ | pt
  · simp at hp
  rcases tags with _ | tg
  · simp at ht
  rcases desc with _ | d
  · simp at hd
  rfl

theorem mapE_toProductE_ok (ps : List ProductJS)
    (h : ∀ p ∈ ps, p.vendor.isSome = true ∧ p.tags.isSome = true ∧
      p.description.isSome = true ∧ p.productType.isSome = true) :
    mapE toProductE ps = Except.ok (ps.map toProduct) := by
  induction ps with
  | nil => rfl
  | cons p ps ih =>
    obtain ⟨hv, ht, hd, hp⟩ := h p (List.mem_cons_self p ps)
    rw [mapE, toProductE_ok p hv ht hd hp,
      ih (fun q hq => h q (List.mem_cons_of_mem p hq))]
    rfl

/-- C9 (amended): extraction is total (a pure function of the message), and
scoring never throws for products whose optional `vendor`, `tags`,
`description` and `productType` fields are present — an absent
`availableForSale` alone silently behaves as `false` — matching the
normalized products the handler always feeds it; but applied directly to a
product missing one of those four fields, scoring throws, so totality rests
on the upstream normalization's defaulting. -/
theorem smartFilterE_ok_of_fields_present (ps : List ProductJS) (t : SearchTerms)
    (msg : String)
    (h : ∀ p ∈ ps, p.vendor.isSome = true ∧ p.tags.isSome = true ∧
      p.description.isSome = true ∧ p.productType.isSome = true) :
    smartFilterE ps t msg = Except.ok (smartFilter (ps.map toProduct) t msg) := by
  rw [smartFilterE, mapE_toProductE_ok ps h]

/-- a product with every optional field present but `availableForSale`
absent (which alone must behave as `false`). -/
def c9good : ProductJS :=
  { id := "2", title := "Kedi Maması", handle := "kedi-mamasi", vendor := some "Acme",
    productType := some "kedi", tags := some ["mama"], priceAmount := "9",
    priceCurrency := "TRY", description := some "tavuklu mama",
    availableForSale := none, imageUrl := "" }

/-- C9 witness: the amended theorem applied at a concrete product list,
discharging the fields-present hypothesis. -/
theorem smartFilterE_ok_of_fields_present_witness :
    smartFilterE [c9good] emptyTerms "m" =
      Except.ok (smartFilter ([c9good].map toProduct) emptyTerms "m") :=
  smartFilterE_ok_of_fields_present [c9good] emptyTerms "m" (by decide)

/-! ## Claim C10 -/

theorem firstPass_handles_nodup (reply : String) (recent : List String)
    (ps : List Product) (acc : List RecommendedProduct)
    (hinv : ((acc.map fun r => r.handle) ++ (ps.map fun p => p.handle)).Nodup) :
    ((firstPass reply recent ps acc).map fun r => r.handle).Nodup := by
  induction ps generalizing acc with
  | nil => simpa [firstPass] using hinv
  | cons p ps ih =>
    simp only [firstPass]
    split
    · apply ih
      simpa [mkRecommended, List.append_assoc] using hinv
    · apply ih
      refine List.Nodup.sublist ?_ hinv
      exact List.Sublist.append_left (List.sublist_cons_self _ _) _

theorem secondPass_handles_nodup (reply : String) (ps : List Product)
    (acc : List RecommendedProduct) (hacc : (acc.map fun r => r.handle).Nodup) :
    ((secondPass reply ps acc).map fun r => r.handle).Nodup := by
  induction ps generalizing acc with
  | nil => simpa [secondPass] using hacc
  | cons p ps ih =>
    simp only [secondPass]
    split
    · split
      · exact ih acc hacc
      · rename_i hna
        apply ih
        have hnot : p.handle ∉ acc.map fun r => r.handle := by
          intro hmem
          rcases List.mem_map.mp hmem with ⟨r, hr, hre⟩
          have : (acc.any fun r => r.handle == p.handle) = true :=
            List.any_eq_true.mpr ⟨r, hr, by simp [hre]⟩
          exact absurd this hna
        simp only [List.map_append, List.map_cons, List.map_nil]
        rw [List.nodup_append]
        refine ⟨hacc, List.nodup_singleton _, ?_⟩
        intro a ha hb
        simp only [mkRecommended, List.mem_singleton] at hb
        exact hnot (hb ▸ ha)
    · exact ih acc hacc

/-- C10: for every reply text, session, recency state, and candidate list
whose products have pairwise-distinct handles, the list `extractProducts`
returns contains no two entries with the same handle (the distinct-handles
precondition matters because only the second pass checks already-selected
handles, the first pass does not). -/
theorem extractProducts_handles_nodup (reply : String) (products : List Product)
    (sessionId : String) (st : RecencyMap)
    (hnd : (products.map fun p => p.handle).Nodup) :
    ((extractProducts reply products sessionId st).1.map fun r => r.handle).Nodup := by
  have hfst : (extractProducts reply products sessionId st).1 =
      if (firstPass reply (mapGet st sessionId) products []).length < 3 then
        secondPass reply products (firstPass reply (mapGet st sessionId) products [])
      else firstPass reply (mapGet st sessionId) products [] := rfl
  rw [hfst]
  have h1 : ((firstPass reply (mapGet st sessionId) products []).map
      fun r => r.handle).Nodup :=
    firstPass_handles_nodup reply _ products [] (by simpa using hnd)
  split
  · exact secondPass_handles_nodup reply products _ h1
  · exact h1

/-- C10 witness: the theorem applied at a concrete candidate list with
distinct handles. -/
theorem extractProducts_handles_nodup_witness :
    ((extractProducts "Zzz and Fish Food Deluxe" [c6prod, c4prod] "s" []).1.map
      fun r => r.handle).Nodup :=
  extractProducts_handles_nodup "Zzz and Fish Food Deluxe" [c6prod, c4prod] "s" []
    (by decide)

end Laylapet

